import Mathlib

/-!
Verification of the retrieval-and-streaming-generation frontend of the
Student LLM Assistant repository.

The streaming client (`chatAPI.streamMessage`), the chat component
(`ChatInterface`) and the boundary data shapes are embedded from
`src/frontend/src/services/api.ts`, the unnamed `ChatInterface` component
file and the unnamed `types/chat.ts` file.  Strings manipulated by the
stream pump are modelled as `List Char`; the external `JSON.parse` is an
abstract parameter returning `Option`.
-/

namespace LLMSpec

/-! ### Boundary data shapes (types/chat.ts) -/

/-- The TS union `role: "user" | "assistant"`. -/
inductive Role where
  | user
  | assistant
deriving DecidableEq, Repr

/-- The TS `interface ChatMessage`. -/
structure ChatMessage where
  role : Role
  content : String
  timestamp : Option String
deriving DecidableEq, Repr

/-- The TS `interface Source`; the JSON `number` score is idealised as a rational. -/
structure Source where
  content : String
  source : String
  score : Rat
deriving DecidableEq, Repr

/-- The TS `interface ChatRequest`; the unused open-ended `model_params` map is
modelled as an opaque optional unit. -/
structure ChatRequest where
  message : String
  conversation_history : Option (List ChatMessage)
  use_rag : Option Bool
  model_params : Option Unit
deriving DecidableEq, Repr

/-- The TS `interface ChatResponse`; the JSON `number` processing time is idealised
as a rational. -/
structure ChatResponse where
  response : String
  sources : Option (List Source)
  model_used : String
  processing_time : Rat
  tokens_used : Option Nat
  conversation_id : Option String
deriving DecidableEq, Repr

/-- The TS `interface ChatStreamResponse`. -/
structure ChatStreamResponse where
  chunk : String
  done : Bool
  sources : Option (List Source)
  model_used : Option String
  error : Option String
deriving DecidableEq, Repr

/-! ### The stream pump of `chatAPI.streamMessage` (api.ts lines 75-108)

`buffer.split("\n")` on a JavaScript string splits at every newline and
always returns at least one element; `splitNl` is that operation on
`List Char`. -/

/-- JavaScript `s.split("\n")` on `List Char`. -/
def splitNl : List Char → List (List Char)
  | [] => [[]]
  | c :: cs =>
    if c = '\n' then [] :: splitNl cs
    else
      match splitNl cs with
      | [] => [[c]]
      | l :: ls => (c :: l) :: ls

/-- The characters of `"data: "`, the prefix checked by
`line.startsWith("data: ")`. -/
def dataPfx : List Char := "data: ".toList

/-- One line of the pump body: `if (line.startsWith("data: "))` then
`JSON.parse(line.slice(6))`, where a parse failure is caught and the line
skipped.  `parse` abstracts `JSON.parse` composed with the `try`/`catch`. -/
def parseDataLine (parse : List Char → Option ChatStreamResponse)
    (line : List Char) : Option ChatStreamResponse :=
  if dataPfx.isPrefixOf line then parse (line.drop 6) else none

/-- One `pump` iteration on a delivered read: append to the buffer, split on
newlines, keep the last segment as the new buffer (`buffer = lines.pop() || ""`),
and emit the parsed events of the remaining lines in order. -/
def pumpStep (parse : List Char → Option ChatStreamResponse)
    (buffer chunkRead : List Char) :
    List Char × List ChatStreamResponse :=
  let s := buffer ++ chunkRead
  let lines := splitNl s
  (lines.getLastD [], lines.dropLast.filterMap (parseDataLine parse))

/-- The whole pump loop: fold `pumpStep` over the reads delivered by the
body reader; when the reader reports `done` the controller is closed and
whatever is left in the buffer is discarded. -/
def pumpAll (parse : List Char → Option ChatStreamResponse) :
    List (List Char) → List Char → List ChatStreamResponse
  | [], _ => []
  | r :: rs, buffer =>
    (pumpStep parse buffer r).2 ++ pumpAll parse rs (pumpStep parse buffer r).1

/-- The `fetch` response as seen by `streamMessage`: `ok`, `status`, and the
body reader modelled as the list of reads it will deliver (`none` when no
reader is available). -/
structure HttpResponse where
  ok : Bool
  status : Nat
  body : Option (List (List Char))
deriving DecidableEq

/-- The client `chatAPI.streamMessage` (api.ts lines 55-109): throws on a non-ok status,
throws when no body reader is available, and otherwise returns the stream of
events produced by the pump. -/
def streamMessage (parse : List Char → Option ChatStreamResponse)
    (resp : HttpResponse) : Except String (List ChatStreamResponse) :=
  if !resp.ok then
    Except.error ("HTTP error! status: " ++ toString resp.status)
  else
    match resp.body with
    | none => Except.error ("No response body reader available")
    | some reads => Except.ok (pumpAll parse reads [])

/-! ### Basic facts about `splitNl` -/

theorem splitNl_ne_nil (s : List Char) : splitNl s ≠ [] := by
  induction s with
  | nil => simp [splitNl]
  | cons c cs ih =>
    simp only [splitNl]
    split
    · simp
    · split
      · simp
      · simp

theorem splitNl_cons_of_ne (c : Char) (cs : List Char) (h : ¬ c = '\n') :
    splitNl (c :: cs) =
      (c :: (splitNl cs).headI) :: (splitNl cs).tail := by
  simp only [splitNl, if_neg h]
  rcases hs : splitNl cs with _ | ⟨l, ls⟩
  · exact absurd hs (splitNl_ne_nil cs)
  · simp

theorem splitNl_no_newline (s : List Char) :
    ∀ l ∈ splitNl s, '\n' ∉ l := by
  induction s with
  | nil => simp [splitNl]
  | cons c cs ih =>
    by_cases h : c = '\n'
    · subst h
      intro l hl
      rw [show splitNl ('\n' :: cs) = [] :: splitNl cs from by simp [splitNl]] at hl
      rw [List.mem_cons] at hl
      rcases hl with rfl | hl
      · simp
      · exact ih l hl
    · rw [splitNl_cons_of_ne c cs h]
      intro l hl
      rw [List.mem_cons] at hl
      rcases hl with rfl | hl
      · intro hmem
        rw [List.mem_cons] at hmem
        rcases hmem with hmem | hmem
        · exact h hmem.symm
        · have hh : (splitNl cs).headI ∈ splitNl cs := by
            obtain ⟨l0, ls, hs⟩ := List.exists_cons_of_ne_nil (splitNl_ne_nil cs)
            rw [hs]
            simp
          exact ih _ hh hmem
      · exact ih l (List.mem_of_mem_tail hl)

theorem splitNl_of_no_newline (s : List Char) (h : '\n' ∉ s) :
    splitNl s = [s] := by
  induction s with
  | nil => simp [splitNl]
  | cons c cs ih =>
    have hc : ¬ c = '\n' := fun hc => h (by simp [hc])
    have hcs : '\n' ∉ cs := fun hm => h (List.mem_cons_of_mem _ hm)
    rw [splitNl_cons_of_ne c cs hc, ih hcs]
    simp

/-! ### Generic list helpers -/

theorem dropLast_cons_ne {α : Type} (x : α) (l : List α) (h : l ≠ []) :
    (x :: l).dropLast = x :: l.dropLast := by
  cases l with
  | nil => exact absurd rfl h
  | cons y ys => rfl

theorem dropLast_append_ne {α : Type} (A B : List α) (h : B ≠ []) :
    (A ++ B).dropLast = A ++ B.dropLast := by
  induction A with
  | nil => simp
  | cons a A ih =>
    have hAB : A ++ B ≠ [] := by
      intro hc
      exact h (List.append_eq_nil.mp hc).2
    rw [List.cons_append, dropLast_cons_ne a (A ++ B) hAB, ih, List.cons_append]

theorem getLastD_mem {α : Type} (l : List α) (d : α) (h : l ≠ []) :
    l.getLastD d ∈ l := by
  induction l generalizing d with
  | nil => exact absurd rfl h
  | cons a t ih =>
    rw [List.getLastD_cons]
    cases t with
    | nil => simp
    | cons b u => exact List.mem_cons_of_mem a (ih a (by simp))

theorem getLastD_congr {α : Type} (l : List α) (h : l ≠ []) (d1 d2 : α) :
    l.getLastD d1 = l.getLastD d2 := by
  cases l with
  | nil => exact absurd rfl h
  | cons a t => rw [List.getLastD_cons, List.getLastD_cons]

/-- Prepend a segment to the first line of a split result (empty split
results stay empty). -/
def consHead (x : List Char) : List (List Char) → List (List Char)
  | [] => []
  | y :: ys => (x ++ y) :: ys

/-- How `splitNl` acts on a concatenation: the last (unterminated) segment of
the first part is glued onto the first segment of the second part. -/
theorem splitNl_append (a b : List Char) :
    splitNl (a ++ b) =
      (splitNl a).dropLast ++ consHead ((splitNl a).getLastD []) (splitNl b) := by
  induction a with
  | nil =>
    obtain ⟨y, ys, hy⟩ := List.exists_cons_of_ne_nil (splitNl_ne_nil b)
    simp [splitNl, hy, consHead]
  | cons c cs ih =>
    by_cases h : c = '\n'
    · subst h
      have h1 : splitNl ('\n' :: (cs ++ b)) = [] :: splitNl (cs ++ b) := by
        simp [splitNl]
      have h2 : splitNl ('\n' :: cs) = [] :: splitNl cs := by
        simp [splitNl]
      obtain ⟨t, ts, ht⟩ := List.exists_cons_of_ne_nil (splitNl_ne_nil cs)
      rw [List.cons_append, h1, ih, h2, ht]
      simp only [List.getLastD_cons]
      rfl
    · have h1 : splitNl (c :: (cs ++ b)) =
          (c :: (splitNl (cs ++ b)).headI) :: (splitNl (cs ++ b)).tail :=
        splitNl_cons_of_ne c (cs ++ b) h
      have h2 : splitNl (c :: cs) =
          (c :: (splitNl cs).headI) :: (splitNl cs).tail :=
        splitNl_cons_of_ne c cs h
      obtain ⟨y, ys, hy⟩ := List.exists_cons_of_ne_nil (splitNl_ne_nil b)
      obtain ⟨t, ts, ht⟩ := List.exists_cons_of_ne_nil (splitNl_ne_nil cs)
      rw [List.cons_append, h1, ih, h2, ht, hy]
      cases ts with
      | nil => simp [consHead, List.getLastD_cons]
      | cons t2 ts2 =>
        simp only [List.dropLast_cons₂, List.headI, List.tail_cons,
          List.getLastD_cons, List.cons_append]

/-- Gluing a newline-free buffer onto a body just extends its first line. -/
theorem splitNl_buffer (buf rest : List Char) (hb : '\n' ∉ buf) :
    splitNl (buf ++ rest) = consHead buf (splitNl rest) := by
  rw [splitNl_append, splitNl_of_no_newline buf hb]
  simp [List.getLastD_cons]

/-- The pump is chunking-independent: feeding it any list of reads with a
newline-free initial buffer yields the parses of the newline-terminated
lines of the concatenation. -/
theorem pumpAll_eq (parse : List Char → Option ChatStreamResponse)
    (reads : List (List Char)) :
    ∀ (buffer : List Char), '\n' ∉ buffer →
      pumpAll parse reads buffer =
        ((splitNl (buffer ++ reads.flatten)).dropLast).filterMap
          (parseDataLine parse) := by
  induction reads with
  | nil =>
    intro buffer hb
    rw [pumpAll]
    simp [splitNl_of_no_newline buffer hb]
  | cons r rs ih =>
    intro buffer hb
    have hS : splitNl (buffer ++ r) ≠ [] := splitNl_ne_nil _
    have hbuf : '\n' ∉ (splitNl (buffer ++ r)).getLastD [] :=
      splitNl_no_newline (buffer ++ r) _ (getLastD_mem _ _ hS)
    have hsplit : splitNl ((buffer ++ r) ++ rs.flatten) =
        (splitNl (buffer ++ r)).dropLast ++
          splitNl ((splitNl (buffer ++ r)).getLastD [] ++ rs.flatten) := by
      rw [splitNl_append]
      rw [splitNl_buffer _ _ hbuf]
    rw [pumpAll]
    simp only [pumpStep]
    rw [ih _ hbuf,
      show buffer ++ (r :: rs).flatten = (buffer ++ r) ++ rs.flatten by simp,
      hsplit, dropLast_append_ne _ _ (splitNl_ne_nil _), List.filterMap_append]

/-! ### Newline-terminated framing -/

/-- Each line terminated by a newline, concatenated: the framing the backend
uses for server-sent `data: ` lines. -/
def joinNl (lines : List (List Char)) : List Char :=
  (lines.map (fun l => l ++ ['\n'])).flatten

theorem splitNl_newline_append (l rest : List Char) (h : '\n' ∉ l) :
    splitNl (l ++ '\n' :: rest) = l :: splitNl rest := by
  induction l with
  | nil => simp [splitNl]
  | cons c cs ih =>
    have hc : ¬ c = '\n' := fun hc => h (by simp [hc])
    have hcs : '\n' ∉ cs := fun hm => h (List.mem_cons_of_mem _ hm)
    rw [List.cons_append, splitNl_cons_of_ne c _ hc, ih hcs]
    simp

theorem splitNl_joinNl (lines : List (List Char)) (tl : List Char)
    (hl : ∀ l ∈ lines, '\n' ∉ l) (ht : '\n' ∉ tl) :
    splitNl (joinNl lines ++ tl) = lines ++ [tl] := by
  induction lines with
  | nil =>
    rw [joinNl]
    simp [splitNl_of_no_newline tl ht]
  | cons l ls ih =>
    have h1 : '\n' ∉ l := hl l (by simp)
    have h2 : ∀ x ∈ ls, '\n' ∉ x := fun x hx => hl x (List.mem_cons_of_mem _ hx)
    have h3 : joinNl (l :: ls) ++ tl = l ++ '\n' :: (joinNl ls ++ tl) := by
      simp [joinNl]
    rw [h3, splitNl_newline_append _ _ h1, ih h2]
    simp

theorem isPrefixOf_append (l t : List Char) : l.isPrefixOf (l ++ t) = true := by
  induction l with
  | nil => simp [List.isPrefixOf]
  | cons c cs ih => simp [List.isPrefixOf, ih]

/-- A well-formed `data: ` line parses back to the event it serializes. -/
theorem parseDataLine_data (parse : List Char → Option ChatStreamResponse)
    (enc : ChatStreamResponse → List Char) (e : ChatStreamResponse)
    (he : parse (enc e) = some e) :
    parseDataLine parse (dataPfx ++ enc e) = some e := by
  rw [parseDataLine, if_pos (isPrefixOf_append dataPfx (enc e)),
    List.drop_left' (show dataPfx.length = 6 from rfl), he]

theorem filterMap_dataLines (parse : List Char → Option ChatStreamResponse)
    (enc : ChatStreamResponse → List Char) :
    ∀ (es : List ChatStreamResponse), (∀ e ∈ es, parse (enc e) = some e) →
      (es.map (fun e => dataPfx ++ enc e)).filterMap (parseDataLine parse) = es := by
  intro es
  induction es with
  | nil => intro _; rfl
  | cons e es ih =>
    intro hp
    have he : parse (enc e) = some e := hp e (by simp)
    have hes : ∀ x ∈ es, parse (enc x) = some x :=
      fun x hx => hp x (List.mem_cons_of_mem _ hx)
    rw [List.map_cons, List.filterMap_cons, parseDataLine_data parse enc e he,
      ih hes]

/-- Modelled from the spec: the boundary shape of a streaming chat response
produced by the backend (the backend itself is not in the repository).
An ordered event sequence is well-formed when `done = true` occurs only as
the terminal event, `sources` is attached to at most one event, and
`error`, when present, accompanies the terminal event. -/
def specStreamOK (es : List ChatStreamResponse) : Prop :=
  (∀ e ∈ es.dropLast, e.done = false) ∧
  es.countP (fun e => e.sources.isSome) ≤ 1 ∧
  (∀ e ∈ es.dropLast, e.error = none)

instance specStreamOK_decidable (es : List ChatStreamResponse) :
    Decidable (specStreamOK es) :=
  inferInstanceAs (Decidable ((∀ e ∈ es.dropLast, e.done = false) ∧
    es.countP (fun e => e.sources.isSome) ≤ 1 ∧
    (∀ e ∈ es.dropLast, e.error = none)))

/-! ### The `ChatInterface` component (unnamed part_000)

React state is the record below; `handleSendMessage` is modelled as a pure
transition taking the two wall-clock timestamps it reads and the resolution
of `chatAPI.sendMessage` as a function from the request it posts. -/

/-- JavaScript `String.prototype.trim`: strip leading and trailing
whitespace. -/
def jsTrim (s : String) : String :=
  String.mk ((s.data.dropWhile Char.isWhitespace).reverse.dropWhile
    Char.isWhitespace).reverse

/-- The component state held in `useState` hooks. -/
structure ChatState where
  messages : List ChatMessage
  inputMessage : String
  isLoading : Bool
  currentSources : List Source
  showSources : Bool
deriving DecidableEq, Repr

/-- The fixed assistant text appended when `chatAPI.sendMessage` rejects. -/
def errorText : String :=
  "Sorry, I encountered an error while processing your message. Please try again."

/-- The `userMessage` object built by `handleSendMessage`. -/
def userMessageOf (st : ChatState) (t : String) : ChatMessage :=
  { role := Role.user
    content := jsTrim st.inputMessage
    timestamp := some t }

/-- The request posted to `chatAPI.sendMessage`: the trimmed message, the
`messages` state captured by the closure (the history before the new user
message), and `use_rag: true`. -/
def mkChatRequest (st : ChatState) (t : String) : ChatRequest :=
  { message := (userMessageOf st t).content
    conversation_history := some st.messages
    use_rag := some true
    model_params := none }

/-- The handler `handleSendMessage` (part_000 lines 27-76). -/
def handleSendMessage (st : ChatState) (tUser tAssistant : String)
    (send : ChatRequest → Except String ChatResponse) : ChatState :=
  if (jsTrim st.inputMessage).isEmpty || st.isLoading then st
  else
    let userMessage := userMessageOf st tUser
    let st1 : ChatState :=
      { messages := st.messages ++ [userMessage]
        inputMessage := ""
        isLoading := true
        currentSources := []
        showSources := false }
    match send (mkChatRequest st tUser) with
    | Except.ok response =>
      let assistantMessage : ChatMessage :=
        { role := Role.assistant
          content := response.response
          timestamp := some tAssistant }
      let st2 := { st1 with messages := st1.messages ++ [assistantMessage] }
      let st3 :=
        match response.sources with
        | some ss =>
          if 0 < ss.length then
            { st2 with currentSources := ss, showSources := true }
          else st2
        | none => st2
      { st3 with isLoading := false }
    | Except.error _ =>
      let errorMessage : ChatMessage :=
        { role := Role.assistant
          content := errorText
          timestamp := some tAssistant }
      let st2 := { st1 with messages := st1.messages ++ [errorMessage] }
      { st2 with isLoading := false }

/-- The user interactions of the component that update its state. -/
inductive UIEvent where
  | sendMsg (tUser tAssistant : String)
      (send : ChatRequest → Except String ChatResponse)
  | clearChat
  | setInput (s : String)
  | setShowSources (b : Bool)

/-- One state transition of the component. -/
def step (st : ChatState) : UIEvent → ChatState
  | UIEvent.sendMsg tU tA send => handleSendMessage st tU tA send
  | UIEvent.clearChat =>
    { st with messages := [], currentSources := [], showSources := false }
  | UIEvent.setInput s => { st with inputMessage := s }
  | UIEvent.setShowSources b => { st with showSources := b }

/-! ### ChunkingEngine (spec §4.1) -/

/-- Modelled from the spec: the error raised by `chunk` when
`overlap < chunk_size` fails; the backend ChunkingEngine is not in the
repository. -/
inductive ConfigError where
  | overlapNotLessThanChunkSize
deriving DecidableEq, Repr

/-- Modelled from the spec: the sliding chunk window of the backend
ChunkingEngine (not in the repository).  Each chunk takes at most
`chunk_size` units and the next chunk starts `chunk_size - overlap` units
later, so the trailing `overlap` units of chunk `n` are copied into the head
of chunk `n + 1`; paragraph and sentence boundary preferences only move the
cut and are modelled as hard-width cuts. -/
def chunksFrom (chunk_size overlap : Nat) (h : overlap < chunk_size)
    (text : List Char) : List (List Char) :=
  if text.length ≤ chunk_size then [text]
  else text.take chunk_size ::
    chunksFrom chunk_size overlap h (text.drop (chunk_size - overlap))
termination_by text.length
decreasing_by
  simp only [List.length_drop]
  omega

/-- Modelled from the spec: `chunk(text, chunk_size, overlap)` of the backend
ChunkingEngine (not in the repository): fails with `ConfigError` unless
`overlap < chunk_size`, returns no chunks for empty or whitespace-only
input, and otherwise emits the overlapping window sequence. -/
def chunk (text : List Char) (chunk_size overlap : Nat) :
    Except ConfigError (List (List Char)) :=
  if h : overlap < chunk_size then
    Except.ok
      (if text.all Char.isWhitespace then []
       else chunksFrom chunk_size overlap h text)
  else Except.error ConfigError.overlapNotLessThanChunkSize

/-- Modelled from the spec: concatenating the chunks after removing the
overlapping head of every chunk but the first. -/
def reconstruct (overlap : Nat) : List (List Char) → List Char
  | [] => []
  | c :: cs => c ++ (cs.map (fun d => d.drop overlap)).flatten

theorem chunksFrom_cons (chunk_size overlap : Nat) (h : overlap < chunk_size)
    (text : List Char) :
    ∃ rest, chunksFrom chunk_size overlap h text =
      text.take chunk_size :: rest := by
  rw [chunksFrom]
  split
  · exact ⟨[], by rw [List.take_of_length_le ‹_›]⟩
  · exact ⟨_, rfl⟩

theorem reconstruct_chunksFrom (chunk_size overlap : Nat)
    (h : overlap < chunk_size) (text : List Char) :
    reconstruct overlap (chunksFrom chunk_size overlap h text) = text := by
  induction text using chunksFrom.induct chunk_size overlap h with
  | case1 text hle =>
    rw [chunksFrom, if_pos hle]
    simp [reconstruct]
  | case2 text hgt ih =>
    rw [chunksFrom, if_neg hgt]
    obtain ⟨rest, hrest⟩ :=
      chunksFrom_cons chunk_size overlap h (text.drop (chunk_size - overlap))
    rw [hrest] at ih ⊢
    simp only [reconstruct, List.map_cons, List.flatten_cons] at ih ⊢
    have hco : chunk_size - overlap + overlap = chunk_size :=
      Nat.sub_add_cancel (Nat.le_of_lt h)
    have h4 : text.take chunk_size =
        text.take (chunk_size - overlap) ++
          ((text.drop (chunk_size - overlap)).take chunk_size).take overlap := by
      rw [List.take_take, Nat.min_eq_left (Nat.le_of_lt h), ← List.take_add,
        hco]
    rw [h4, List.append_assoc, ← List.append_assoc
      (((text.drop (chunk_size - overlap)).take chunk_size).take overlap),
      List.take_append_drop, ih, List.take_append_drop]

/-- When the guard passes, `handleSendMessage` appends exactly the user
message and one assistant message whose content depends on how the request
resolved. -/
theorem handleSendMessage_messages (st : ChatState) (tU tA : String)
    (send : ChatRequest → Except String ChatResponse)
    (hg : ((jsTrim st.inputMessage).isEmpty || st.isLoading) = false) :
    (handleSendMessage st tU tA send).messages =
      st.messages ++ [userMessageOf st tU,
        { role := Role.assistant
          content :=
            match send (mkChatRequest st tU) with
            | Except.ok resp => resp.response
            | Except.error _ => errorText
          timestamp := some tA }] := by
  rw [handleSendMessage, hg]
  cases hres : send (mkChatRequest st tU) with
  | ok resp =>
    simp only [Bool.false_eq_true, if_false]
    cases resp.sources with
    | none => simp
    | some ss =>
      by_cases hlen : 0 < ss.length
      · simp [hlen]
      · simp [hlen]
  | error e =>
    simp only [Bool.false_eq_true, if_false]
    simp

/-! ### Claim theorems -/

/-- C2: for every HTTP response body — under any chunking of the body into
reads — the stream returned by `chatAPI.streamMessage` enqueues exactly the
events obtained by parsing the suffix of each newline-terminated line that
starts with `"data: "`, in the order those lines occur in the body. -/
theorem stream_events_from_lines
    (parse : List Char → Option ChatStreamResponse) (status : Nat)
    (reads : List (List Char)) :
    streamMessage parse { ok := true, status := status, body := some reads } =
      Except.ok (((splitNl reads.flatten).dropLast).filterMap
        (parseDataLine parse)) := by
  show Except.ok (pumpAll parse reads []) = _
  rw [pumpAll_eq parse reads [] (by simp), List.nil_append]

/-- C1: a streaming chat response — a body framing, as newline-terminated
`data: ` lines, an event sequence that satisfies the spec's boundary shape —
is delivered by `chatAPI.streamMessage` as exactly that sequence, so the
delivered events have `done = true` only terminally, `sources` at most once,
and `error` only on the terminal event. -/
theorem stream_protocol_preserved
    (parse : List Char → Option ChatStreamResponse)
    (enc : ChatStreamResponse → List Char)
    (es : List ChatStreamResponse) (reads : List (List Char)) (status : Nat)
    (hread : reads.flatten = joinNl (es.map (fun e => dataPfx ++ enc e)))
    (henc : ∀ e ∈ es, '\n' ∉ enc e)
    (hparse : ∀ e ∈ es, parse (enc e) = some e)
    (hok : specStreamOK es) :
    ∃ evs,
      streamMessage parse { ok := true, status := status, body := some reads } =
        Except.ok evs ∧ evs = es ∧ specStreamOK evs := by
  have hlines : ∀ l ∈ es.map (fun e => dataPfx ++ enc e), '\n' ∉ l := by
    intro l hl
    rw [List.mem_map] at hl
    obtain ⟨e, he, rfl⟩ := hl
    intro hmem
    rw [List.mem_append] at hmem
    rcases hmem with hmem | hmem
    · revert hmem
      decide
    · exact henc e he hmem
  have hpump : pumpAll parse reads [] = es := by
    rw [pumpAll_eq parse reads [] (by simp), List.nil_append, hread,
      show joinNl (es.map (fun e => dataPfx ++ enc e)) =
          joinNl (es.map (fun e => dataPfx ++ enc e)) ++ [] by simp,
      splitNl_joinNl _ [] hlines (by simp), List.dropLast_concat,
      filterMap_dataLines parse enc es hparse]
  exact ⟨pumpAll parse reads [], rfl, hpump, hpump ▸ hok⟩

/-- C1 witness: a concrete one-event protocol-conforming body delivered in
one read. -/
theorem stream_protocol_preserved_witness :
    ∃ evs,
      streamMessage
        (fun l => if l = ['o', 'k'] then
          some { chunk := "hi", done := true, sources := none,
                 model_used := none, error := none }
          else none)
        { ok := true, status := 200,
          body := some [['d','a','t','a',':',' ','o','k','\n']] } =
        Except.ok evs ∧
      evs = [{ chunk := "hi", done := true, sources := none,
               model_used := none, error := none }] ∧
      specStreamOK evs :=
  stream_protocol_preserved
    (fun l => if l = ['o', 'k'] then
      some { chunk := "hi", done := true, sources := none,
             model_used := none, error := none }
      else none)
    (fun _ => ['o', 'k'])
    [{ chunk := "hi", done := true, sources := none,
       model_used := none, error := none }]
    [['d','a','t','a',':',' ','o','k','\n']] 200
    (by decide) (by decide) (by decide) (by decide)

/-- C8: data lines that fail parsing are skipped without terminating the
stream (later lines are still delivered), and a final line not terminated by
a newline — even a `data: ` line carrying a terminal event — stays in the
buffer and is never delivered. -/
theorem malformed_and_unterminated_lines_dropped
    (parse : List Char → Option ChatStreamResponse)
    (lines : List (List Char)) (tl : List Char)
    (hl : ∀ l ∈ lines, '\n' ∉ l) (ht : '\n' ∉ tl) :
    streamMessage parse
      { ok := true, status := 200, body := some [joinNl lines ++ tl] } =
      Except.ok (lines.filterMap (parseDataLine parse)) := by
  show Except.ok (pumpAll parse [joinNl lines ++ tl] []) = _
  rw [pumpAll_eq parse _ [] (by simp), List.nil_append,
    show ([joinNl lines ++ tl] : List (List Char)).flatten =
      joinNl lines ++ tl by simp,
    splitNl_joinNl lines tl hl ht, List.dropLast_concat]

/-- C8 witness: one malformed line, one good line after it, and an
unterminated final `data: ` line; only the good line's event is delivered. -/
theorem malformed_and_unterminated_lines_dropped_witness :
    streamMessage
      (fun l => if l = ['o', 'k'] then
        some { chunk := "hi", done := true, sources := none,
               model_used := none, error := none }
        else none)
      { ok := true, status := 200,
        body := some [joinNl [['d','a','t','a',':',' ','b','a','d'],
          ['d','a','t','a',':',' ','o','k']] ++
          ['d','a','t','a',':',' ','o','k']] } =
      Except.ok ([['d','a','t','a',':',' ','b','a','d'],
        ['d','a','t','a',':',' ','o','k']].filterMap
        (parseDataLine (fun l => if l = ['o', 'k'] then
          some { chunk := "hi", done := true, sources := none,
                 model_used := none, error := none }
          else none))) :=
  malformed_and_unterminated_lines_dropped
    (fun l => if l = ['o', 'k'] then
      some { chunk := "hi", done := true, sources := none,
             model_used := none, error := none }
      else none)
    [['d','a','t','a',':',' ','b','a','d'], ['d','a','t','a',':',' ','o','k']]
    ['d','a','t','a',':',' ','o','k']
    (by decide) (by decide)

/-- C10: `chatAPI.streamMessage` throws — delivering no stream — exactly when
the HTTP status is not ok or the response provides no body reader; a stream
is returned only when both checks pass. -/
theorem streamMessage_error_iff
    (parse : List Char → Option ChatStreamResponse) (resp : HttpResponse) :
    (∃ msg, streamMessage parse resp = Except.error msg) ↔
      (resp.ok = false ∨ resp.body = none) := by
  rcases resp with ⟨ok, status, body⟩
  cases ok
  · simp [streamMessage]
  · cases body
    · simp [streamMessage]
    · simp [streamMessage]

/-- C3: when `chatAPI.sendMessage` rejects, exactly one assistant message
with the fixed error text is appended, and every message already in the
list — including this invocation's user message — stays unchanged and in
place. -/
theorem error_appends_fixed_message (st : ChatState) (tU tA : String)
    (send : ChatRequest → Except String ChatResponse) (err : String)
    (hinput : (jsTrim st.inputMessage).isEmpty = false)
    (hload : st.isLoading = false)
    (hsend : send (mkChatRequest st tU) = Except.error err) :
    (handleSendMessage st tU tA send).messages =
      st.messages ++ [userMessageOf st tU,
        { role := Role.assistant, content := errorText,
          timestamp := some tA }] := by
  have hg : ((jsTrim st.inputMessage).isEmpty || st.isLoading) = false := by
    rw [hinput, hload]
    rfl
  rw [handleSendMessage_messages st tU tA send hg, hsend]

/-- C3 witness. -/
theorem error_appends_fixed_message_witness :
    (handleSendMessage
      { messages := [], inputMessage := "hello", isLoading := false,
        currentSources := [], showSources := false }
      "t1" "t2" (fun _ => Except.error ("boom"))).messages =
      ([] : List ChatMessage) ++
        [userMessageOf
          { messages := [], inputMessage := "hello", isLoading := false,
            currentSources := [], showSources := false } "t1",
         { role := Role.assistant, content := errorText,
           timestamp := some ("t2") }] :=
  error_appends_fixed_message
    { messages := [], inputMessage := "hello", isLoading := false,
      currentSources := [], showSources := false }
    "t1" "t2" (fun _ => Except.error ("boom")) "boom"
    (by decide) rfl rfl

/-- C4: when `chatAPI.sendMessage` resolves, exactly one assistant turn is
appended — not zero times, not twice — and its content is the full
`response.response` text. -/
theorem success_appends_full_response (st : ChatState) (tU tA : String)
    (send : ChatRequest → Except String ChatResponse) (resp : ChatResponse)
    (hinput : (jsTrim st.inputMessage).isEmpty = false)
    (hload : st.isLoading = false)
    (hsend : send (mkChatRequest st tU) = Except.ok resp) :
    (handleSendMessage st tU tA send).messages =
      st.messages ++ [userMessageOf st tU,
        { role := Role.assistant, content := resp.response,
          timestamp := some tA }] := by
  have hg : ((jsTrim st.inputMessage).isEmpty || st.isLoading) = false := by
    rw [hinput, hload]
    rfl
  rw [handleSendMessage_messages st tU tA send hg, hsend]

/-- C4 witness. -/
theorem success_appends_full_response_witness :
    (handleSendMessage
      { messages := [], inputMessage := "hello", isLoading := false,
        currentSources := [], showSources := false }
      "t1" "t2"
      (fun _ => Except.ok
        { response := "42", sources := none, model_used := "m",
          processing_time := 0, tokens_used := none,
          conversation_id := none })).messages =
      ([] : List ChatMessage) ++
        [userMessageOf
          { messages := [], inputMessage := "hello", isLoading := false,
            currentSources := [], showSources := false } "t1",
         { role := Role.assistant, content := "42",
           timestamp := some ("t2") }] :=
  success_appends_full_response
    { messages := [], inputMessage := "hello", isLoading := false,
      currentSources := [], showSources := false }
    "t1" "t2"
    (fun _ => Except.ok
      { response := "42", sources := none, model_used := "m",
        processing_time := 0, tokens_used := none,
        conversation_id := none })
    { response := "42", sources := none, model_used := "m",
      processing_time := 0, tokens_used := none, conversation_id := none }
    (by decide) rfl rfl

/-- C5: every chat request sent by `handleSendMessage` carries exactly the
boundary shape — the trimmed input text, the prior turns excluding the new
user message, and `use_rag = true` — and the handler consults `send` only on
that one request. -/
theorem request_boundary_shape (st : ChatState) (tU tA : String)
    (send : ChatRequest → Except String ChatResponse)
    (hinput : (jsTrim st.inputMessage).isEmpty = false)
    (hload : st.isLoading = false) :
    (mkChatRequest st tU).message = jsTrim st.inputMessage ∧
    (mkChatRequest st tU).conversation_history = some st.messages ∧
    (mkChatRequest st tU).use_rag = some true ∧
    handleSendMessage st tU tA send =
      handleSendMessage st tU tA (fun _ => send (mkChatRequest st tU)) :=
  ⟨rfl, rfl, rfl, rfl⟩

/-- C5 witness. -/
theorem request_boundary_shape_witness :
    (mkChatRequest
      { messages := [], inputMessage := "hello", isLoading := false,
        currentSources := [], showSources := false } "t1").message =
      jsTrim ("hello") ∧
    (mkChatRequest
      { messages := [], inputMessage := "hello", isLoading := false,
        currentSources := [], showSources := false } "t1").conversation_history =
      some [] ∧
    (mkChatRequest
      { messages := [], inputMessage := "hello", isLoading := false,
        currentSources := [], showSources := false } "t1").use_rag =
      some true ∧
    handleSendMessage
      { messages := [], inputMessage := "hello", isLoading := false,
        currentSources := [], showSources := false }
      "t1" "t2" (fun _ => Except.error ("boom")) =
    handleSendMessage
      { messages := [], inputMessage := "hello", isLoading := false,
        currentSources := [], showSources := false }
      "t1" "t2"
      (fun _ => (fun _ => Except.error ("boom"))
        (mkChatRequest
          { messages := [], inputMessage := "hello", isLoading := false,
            currentSources := [], showSources := false } "t1")) :=
  request_boundary_shape
    { messages := [], inputMessage := "hello", isLoading := false,
      currentSources := [], showSources := false }
    "t1" "t2" (fun _ => Except.error ("boom")) (by decide) rfl

/-- C9: with empty or whitespace-only input, or while a request is in
flight, `handleSendMessage` issues no request (its result is independent of
`send`) and leaves every piece of component state unchanged. -/
theorem guard_blocks_all_effects (st : ChatState) (tU tA : String)
    (send : ChatRequest → Except String ChatResponse)
    (h : (jsTrim st.inputMessage).isEmpty = true ∨ st.isLoading = true) :
    handleSendMessage st tU tA send = st ∧
    handleSendMessage st tU tA send =
      handleSendMessage st tU tA (fun _ => Except.error ("unreachable")) := by
  have hg : ((jsTrim st.inputMessage).isEmpty || st.isLoading) = true := by
    rcases h with h | h <;> simp [h]
  constructor
  · rw [handleSendMessage, hg]
    rfl
  · rw [handleSendMessage, hg, handleSendMessage, hg]
    rfl

/-- C9 witness: whitespace-only input. -/
theorem guard_blocks_all_effects_witness :
    handleSendMessage
      { messages := [], inputMessage := "  ", isLoading := false,
        currentSources := [], showSources := false }
      "t1" "t2" (fun _ => Except.error ("boom")) =
      { messages := [], inputMessage := "  ", isLoading := false,
        currentSources := [], showSources := false } ∧
    handleSendMessage
      { messages := [], inputMessage := "  ", isLoading := false,
        currentSources := [], showSources := false }
      "t1" "t2" (fun _ => Except.error ("boom")) =
    handleSendMessage
      { messages := [], inputMessage := "  ", isLoading := false,
        currentSources := [], showSources := false }
      "t1" "t2" (fun _ => Except.error ("unreachable")) :=
  guard_blocks_all_effects
    { messages := [], inputMessage := "  ", isLoading := false,
      currentSources := [], showSources := false }
    "t1" "t2" (fun _ => Except.error ("boom")) (Or.inl (by decide))

/-- C6: every state transition of the component leaves the message list
unchanged, appends turns one at a time at the end (one for a blocked send,
two — user then assistant — for a completed one), or resets it to empty via
Clear Chat; existing messages are never reordered, edited or removed. -/
theorem messages_append_only_or_cleared (st : ChatState) (ev : UIEvent) :
    (step st ev).messages = st.messages ∨
    (∃ m, (step st ev).messages = st.messages ++ [m]) ∨
    (∃ m1 m2, (step st ev).messages = st.messages ++ [m1, m2]) ∨
    (step st ev).messages = [] := by
  cases ev with
  | sendMsg tU tA send =>
    simp only [step]
    by_cases hg : ((jsTrim st.inputMessage).isEmpty || st.isLoading) = true
    · left
      rw [handleSendMessage, hg]
      rfl
    · rw [Bool.not_eq_true] at hg
      right; right; left
      exact ⟨userMessageOf st tU, _,
        handleSendMessage_messages st tU tA send hg⟩
  | clearChat =>
    right; right; right
    rfl
  | setInput s =>
    left
    rfl
  | setShowSources b =>
    left
    rfl

/-- C7 counterexample: a whitespace-only, nonempty input chunks to the empty
sequence (as the spec's empty-chunk rule requires), so reconstruction yields
the empty text, not the original. -/
theorem chunk_whitespace_counterexample :
    chunk ([' ']) 2 0 = Except.ok [] ∧ reconstruct 0 [] ≠ [' '] := by
  constructor
  · rfl
  · decide

/-- C7 amended: for every input that is empty or contains a non-whitespace
character, and every `overlap < chunk_size`, chunking succeeds and
concatenating the chunks with the overlapping head of every chunk after the
first removed reconstructs the original text exactly. -/
theorem chunk_reconstructs_amended (text : List Char)
    (chunk_size overlap : Nat) (hov : overlap < chunk_size)
    (hws : text = [] ∨ text.all Char.isWhitespace = false) :
    ∃ cs, chunk text chunk_size overlap = Except.ok cs ∧
      reconstruct overlap cs = text := by
  rcases hws with rfl | hws
  · refine ⟨[], ?_, rfl⟩
    rw [chunk, dif_pos hov]
    simp
  · refine ⟨chunksFrom chunk_size overlap hov text, ?_,
      reconstruct_chunksFrom chunk_size overlap hov text⟩
    rw [chunk, dif_pos hov, if_neg (by simp [hws])]

/-- C7 witness: `"abcde"` with `chunk_size = 3`, `overlap = 1`. -/
theorem chunk_reconstructs_amended_witness :
    ∃ cs, chunk (['a','b','c','d','e']) 3 1 = Except.ok cs ∧
      reconstruct 1 cs = ['a','b','c','d','e'] :=
  chunk_reconstructs_amended (['a','b','c','d','e']) 3 1 (by decide)
    (Or.inr (by decide))

end LLMSpec
